import Mathlib

/-!
Verification of the `better-tail` line-tailing library.

The data model and operations below are a shallow embedding of
`src/index.js` (class `Tail`): content is a list of characters standing
for the byte string of the target (one character per byte), selectors
mirror the JS `bytes` / `lines` options including their `"+N"` string
form, and the cursor arithmetic follows `_checkEOFNewline`,
`_getCursorPos` and `_readLines` line by line.  The retry controller with
time/attempt budgets is documented and tested in the repository but its
implementation file is absent; it is modelled from the specification and
clearly marked as such.
-/

namespace BetterTail

/-- Selector value as it appears in the `bytes` / `lines` options: either a
plain number or the string form `"+N"` (tail-from semantics). -/
inductive Sel where
  | num (n : Int)
  | plus (n : Nat)
deriving DecidableEq, Repr

/-- Numeric value JS coercion gives a selector (`Number("+N") = N`). -/
def Sel.val : Sel → Int
  | .num n => n
  | .plus n => n

/-- `selector.toString().includes('+')` distinguishes the `"+N"` form. -/
def Sel.isPlus : Sel → Bool
  | .num _ => false
  | .plus _ => true

/-- Options record after constructor defaulting (`follow: false`,
`lines: 10`); `bytes` has no default.  Retry, sleep interval, encoding and
debug do not enter the cursor arithmetic and are tracked separately. -/
structure Options where
  bytes : Option Sel
  lines : Sel
  follow : Bool
deriving DecidableEq, Repr

/-- Helper used by the split functions: prepend a character to the first
segment of a split result. -/
def consHead (c : Char) : List (List Char) → List (List Char)
  | [] => [[c]]
  | l :: ls => (c :: l) :: ls

/-- `data.split(/\r?\n/)` from `_checkEOFNewline` and `_getCursorPos`:
split on `\n`, consuming one optional preceding `\r`.  A lone `\r` (not
followed by `\n`) stays inside its segment. -/
def splitLines : List Char → List (List Char)
  | [] => [[]]
  | '\r' :: '\n' :: rest => [] :: splitLines rest
  | '\n' :: rest => [] :: splitLines rest
  | c :: rest => consHead c (splitLines rest)

/-- Node `readline` line splitting: terminators are `\r\n`, `\n`, and also
a lone `\r`. -/
def splitCRLF : List Char → List (List Char)
  | [] => [[]]
  | '\r' :: '\n' :: rest => [] :: splitCRLF rest
  | '\r' :: rest => [] :: splitCRLF rest
  | '\n' :: rest => [] :: splitCRLF rest
  | c :: rest => consHead c (splitCRLF rest)

/-- Every carriage return in the list is immediately followed by a line
feed (content whose only terminators are `\n` / `\r\n`). -/
def noLoneCR : List Char → Bool
  | [] => true
  | '\r' :: '\n' :: rest => noLoneCR rest
  | '\r' :: _ => false
  | _ :: rest => noLoneCR rest

/-- Lines emitted by a `readline` interface reading `rest`: one `line`
event per terminator-delimited segment, the final partial segment only
when nonempty (readline flushes a nonempty partial line on close and emits
nothing at all for empty input). -/
def readlineLines (rest : List Char) : List (List Char) :=
  let segs := splitCRLF rest
  if segs.getLast? = some [] then segs.dropLast else segs

/-- `_checkEOFNewline`: the `ignoreEOFNewline` flag starts `true` and is
cleared only when not in follow mode and the final split segment is empty
(the content ends with a line terminator). -/
def ignoreEOFNewline (follow : Bool) (data : List Char) : Bool :=
  if follow then true
  else if (splitLines data).getLast? = some [] then false
  else true

/-- Length consumed by one unit `[^\r\n]*\r?\n` of the cursor regular
expression when matched at the head of the list, if it matches there. -/
def unitLen : List Char → Option Nat
  | [] => none
  | '\n' :: _ => some 1
  | '\r' :: '\n' :: _ => some 2
  | '\r' :: _ => none
  | _ :: rest => (unitLen rest).map (· + 1)

/-- Length consumed by `k` consecutive units at the head of the list. -/
def unitsLen : Nat → List Char → Option Nat
  | 0, _ => some 0
  | k + 1, s =>
    match unitLen s with
    | none => none
    | some n =>
      match unitsLen k (s.drop n) with
      | none => none
      | some m => some (n + m)

/-- `data.match(RegExp(unit repeated searchFrom times))` from
`_getCursorPos`: the regex engine scans left to right and stops at the
first position where all units match; the code then takes the byte length
of the matched text itself (`match[0]`), not the match end offset. -/
def regexMatchLen (k : Nat) : List Char → Option Nat
  | [] => unitsLen k []
  | c :: t =>
    match unitsLen k (c :: t) with
    | some n => some n
    | none => regexMatchLen k t

/-- Truthiness of `options.bytes` in `_getCursorPos`: absent or the number
`0` is falsy; any other number and any `"+N"` string is truthy. -/
def bytesTruthy : Option Sel → Bool
  | none => false
  | some (.num n) => n != 0
  | some (.plus _) => true

/-- Byte-selector branch of `_getCursorPos`: `"+N"` gives offset `N`,
a plain number gives `byteLength - N` with no clamping at zero. -/
def bytesCursor (b : Sel) (data : List Char) : Int :=
  if b.isPlus then b.val else (data.length : Int) - b.val

/-- Line-selector branch of `_getCursorPos`: out-of-range selectors give
offset `0`; otherwise the offset is the byte length of the regex match
skipping `searchFrom` complete lines, falling back to `0` when nothing
matches. -/
def linesCursor (lsel : Sel) (ign : Bool) (data : List Char) : Int :=
  let lines := splitLines data
  if (lines.length : Int) ≤ lsel.val then 0
  else
    let removeLast : Int := if ign then 1 else 0
    let searchFrom : Int :=
      if lsel.isPlus then lsel.val - removeLast
      else (lines.length : Int) - lsel.val - removeLast
    match regexMatchLen searchFrom.toNat data with
    | some n => (n : Int)
    | none => 0

/-- `_getCursorPos`: the byte selector, when truthy, is consulted first;
otherwise the line search runs. -/
def getCursorPos (opts : Options) (ign : Bool) (data : List Char) : Int :=
  if bytesTruthy opts.bytes then
    match opts.bytes with
    | some b => bytesCursor b data
    | none => linesCursor opts.lines ign data
  else linesCursor opts.lines ign data

/-- Constructor cursor initialization for path/fd targets:
`this.cursor = this.options.lines <= 0 ? 0 : this._getCursorPos()`,
with `ignoreEOFNewline` computed by `_checkEOFNewline` beforehand. -/
def initCursor (opts : Options) (data : List Char) : Int :=
  if opts.lines.val ≤ 0 then 0
  else getCursorPos opts (ignoreEOFNewline opts.follow data) data

/-- Cursor reset in the truncation branch of `_readLines`; it reuses the
instance's `ignoreEOFNewline`, which in follow mode is still `true`. -/
def truncResetCursor (opts : Options) (data : List Char) : Int :=
  if opts.lines.val ≤ 0 then 0 else getCursorPos opts true data

/-- The marker pushed by `_readLines` when truncation is detected. -/
def truncationMarker : List Char := "tail : file truncated\n".data

/-- Outcome of a read cycle: the emitted data lines, or a terminal error. -/
inductive RunResult where
  | ok (emitted : List (List Char))
  | err (code : String)
deriving DecidableEq, Repr

/-- Number of emitted lines in a run result. -/
def RunResult.count : RunResult → Nat
  | .ok l => l.length
  | .err _ => 0

/-- Whether a run result is not an error. -/
def RunResult.isOk : RunResult → Bool
  | .ok _ => true
  | .err _ => false

/-- One complete non-follow read cycle on a path/fd target, following
`_readLines`: a cursor equal to the size skips the read entirely; a cursor
above the size takes the truncation branch (marker pushed, cursor reset,
and — without follow — nothing further happens); a negative cursor makes
`createReadStream` throw (`start` must be nonnegative), destroying the
stream; otherwise `readline` emits the lines of the window from the cursor
to the end, and `_handleEndEvent` appends one empty data line when
`ignoreEOFNewline` is false. -/
def tailRunFile (opts : Options) (content : List Char) : RunResult :=
  let ign := ignoreEOFNewline opts.follow content
  let cursor := initCursor opts content
  if cursor = (content.length : Int) then .ok []
  else if (content.length : Int) < cursor then .ok [truncationMarker]
  else if cursor < 0 then .err "ERR_OUT_OF_RANGE"
  else .ok (readlineLines (content.drop cursor.toNat) ++ if ign then [] else [[]])

/-- Resolved target kinds (`_guessTarget`). -/
inductive Target where
  | path (p : String)
  | fd (n : Nat)
  | stream
deriving DecidableEq, Repr

/-- Shapes a raw constructor argument can take, as `_guessTarget`
distinguishes them. -/
inductive RawTarget where
  | absent
  | validFd (n : Nat)
  | objWithValidFd (n : Nat)
  | readStream
  | str (p : String)
  | other
deriving DecidableEq, Repr

/-- Result of target classification. -/
inductive Guessed where
  | ok (t : Target) (forceFollow : Bool)
  | invalid
deriving DecidableEq, Repr

/-- `_guessTarget`: absent input resolves to standard input as a stream
target and forces `follow = true`; valid descriptors (direct or behind an
`fd` field) become fd targets; read streams stay streams; strings are
paths; anything else is an invalid target. -/
def guessTarget : RawTarget → Guessed
  | .absent => .ok .stream true
  | .validFd n => .ok (.fd n) false
  | .objWithValidFd n => .ok (.fd n) false
  | .readStream => .ok .stream false
  | .str p => .ok (.path p) false
  | .other => .invalid

/-- Cursor assigned by the constructor per target type: stream targets get
cursor `0` directly; path/fd targets run the file checks and the cursor
computation. -/
def constructorCursor (t : Target) (opts : Options) (content : List Char) : Int :=
  match t with
  | .stream => 0
  | _ => initCursor opts content

/-- Full read cycle per target type.  For a stream target `_readLines`
never computes a size, passes the stream straight to `readline`, and
`_checkEOFNewline` never ran (so `ignoreEOFNewline` keeps its initial
`true` and the end handler appends nothing): the entire stream content
from its current position is emitted and the options play no part. -/
def tailRun (t : Target) (opts : Options) (content : List Char) : RunResult :=
  match t with
  | .stream => .ok (readlineLines content)
  | _ => tailRunFile opts content

/-- Observable state of a `Tail` instance during follow polling. -/
structure TailState where
  cursor : Int
  isReading : Bool
  emitted : List (List Char)
  rlOpen : Bool
  intervalSet : Bool
  destroyed : Bool
deriving DecidableEq, Repr

/-- Events driving the follow loop: a poll tick of `_readLines` seeing the
file's current content, or the readline `close` event reporting how many
bytes the read stream consumed. -/
inductive TailEvent where
  | poll (content : List Char)
  | closeEvt (bytesRead : Nat)
deriving DecidableEq, Repr

/-- One `_readLines` invocation or `_handleCloseEvent`, as a step on the
observable state.  A poll does nothing while a read is in flight or when
the cursor equals the current size; a cursor above the size is truncation
(the marker is pushed, then the cursor is reset from the new content with
the original options, before any further reading); a negative cursor makes
`createReadStream` throw, destroying the stream; otherwise a read starts
at the cursor and `readline` emits the lines of the remaining window.
`_handleCloseEvent` adds `input.bytesRead` to the cursor and clears the
in-flight flag. -/
def step (opts : Options) (st : TailState) : TailEvent → TailState
  | .poll content =>
    let size : Int := content.length
    if st.isReading then st
    else if st.cursor = size then st
    else if size < st.cursor then
      { st with emitted := st.emitted ++ [truncationMarker],
                cursor := truncResetCursor opts content }
    else if st.cursor < 0 then
      { st with destroyed := true }
    else
      { st with isReading := true, rlOpen := true,
                emitted := st.emitted ++ readlineLines (content.drop st.cursor.toNat) }
  | .closeEvt n =>
    { st with isReading := false, rlOpen := false, cursor := st.cursor + n }

/-- Run a sequence of events through `step`. -/
def run (opts : Options) (st : TailState) : List TailEvent → TailState
  | [] => st
  | ev :: evs => run opts (step opts st ev) evs

/-- Whether an event triggers the truncation branch in the current state:
a poll, with no read in flight, whose content size is below the cursor. -/
def isTruncStep (st : TailState) : TailEvent → Bool
  | .poll content => !st.isReading && decide ((content.length : Int) < st.cursor)
  | .closeEvt _ => false

/-- No step of the trace takes the truncation branch. -/
def noTruncRun (opts : Options) (st : TailState) : List TailEvent → Bool
  | [] => true
  | ev :: evs => !isTruncStep st ev && noTruncRun opts (step opts st ev) evs

/-- `_destroy`: closes the readline interface if present, clears the poll
interval when in follow mode, and marks the stream destroyed.  Already
emitted data is untouched. -/
def destroyState (opts : Options) (st : TailState) : TailState :=
  { st with rlOpen := false,
            intervalSet := if opts.follow then false else st.intervalSet,
            destroyed := true }

/-- `unfollow()` calls `this.destroy()` unconditionally, whatever the
`follow` option was. -/
def unfollow (opts : Options) (st : TailState) : TailState :=
  destroyState opts st

/-- Retry budget: the poll interval between attempts (defaulting to the
sleep interval) and the optional time and attempt budgets. -/
structure RetryBudget where
  interval : Nat
  timeoutMs : Option Nat
  maxAttempts : Option Nat
deriving DecidableEq, Repr

/-- Outcome of the retry state machine, with the attempt count and the
elapsed milliseconds at that point. -/
inductive RetryResult where
  | success (attempts : Nat) (elapsed : Nat)
  | timeoutErr (attempts : Nat) (elapsed : Nat)
  | maxAttemptsErr (attempts : Nat) (elapsed : Nat)
deriving DecidableEq, Repr

/-- Whether an optional budget limit has been exceeded by a value. -/
def budgetExceeded : Option Nat → Nat → Bool
  | none, _ => false
  | some limit, v => limit < v

/-- Modelled from the spec: the retry controller with time/attempt budgets
(`retry: \x7btimeout, max, interval\x7d`) lives in `lib/index.js`, which is
absent from the sources; only its tests, its README documentation and the
option validation in `lib/utils.js` are present.  Following section 4.2 of
the specification: on each CHECKING entry an access validation attempt is
made; on failure, a configured time budget exceeded by the elapsed time
since the first attempt fails with `RetryTimeoutError` (message
"Retry timeout reached"); else a configured attempt budget exceeded by the
attempt count fails with `RetryMaxAttemptsError` (message
"Max retries reached"); else the controller sleeps for `interval` and
re-enters CHECKING.  `accessible k` tells whether the k-th validation
attempt succeeds; fuel bounds the unrolling (retry can be unbounded). -/
def retryRun (b : RetryBudget) (accessible : Nat → Bool) :
    Nat → Nat → Nat → Option RetryResult
  | 0, _, _ => none
  | fuel + 1, attempts, elapsed =>
    let a := attempts + 1
    if accessible a then some (.success a elapsed)
    else if budgetExceeded b.timeoutMs elapsed then some (.timeoutErr a elapsed)
    else if budgetExceeded b.maxAttempts a then some (.maxAttemptsErr a elapsed)
    else retryRun b accessible fuel a (elapsed + b.interval)

/-! ### Helper lemmas -/


theorem consHead_ne_nil (c : Char) (l : List (List Char)) : consHead c l ≠ [] := by
  cases l <;> simp [consHead]

theorem splitLines_ne_nil (s : List Char) : splitLines s ≠ [] := by
  induction s using splitLines.induct with
  | case1 => simp [splitLines]
  | case2 rest ih => simp [splitLines]
  | case3 rest ih => simp [splitLines]
  | case4 c rest h1 h2 ih =>
    rw [splitLines.eq_4 c rest h1 h2]
    exact consHead_ne_nil c _

theorem noLoneCR_cons_ne {c : Char} (rest : List Char) (hc : c ≠ '\r') :
    noLoneCR (c :: rest) = noLoneCR rest :=
  noLoneCR.eq_4 c rest (fun _ h _ => hc h) (fun h => hc h)

theorem splitLines_cons_ne {c : Char} (rest : List Char) (hn : c ≠ '\n') (hc : c ≠ '\r') :
    splitLines (c :: rest) = consHead c (splitLines rest) :=
  splitLines.eq_4 c rest (fun _ h _ => hc h) (fun h => hn h)

theorem splitCRLF_cons_ne {c : Char} (rest : List Char) (hn : c ≠ '\n') (hc : c ≠ '\r') :
    splitCRLF (c :: rest) = consHead c (splitCRLF rest) :=
  splitCRLF.eq_5 c rest (fun _ h _ => hc h) (fun h => hc h) (fun h => hn h)

theorem unitLen_cons_ne {c : Char} (rest : List Char) (hn : c ≠ '\n') (hc : c ≠ '\r') :
    unitLen (c :: rest) = (unitLen rest).map (· + 1) :=
  unitLen.eq_5 c rest (fun h => hn h) (fun _ h _ => hc h) (fun h => hc h)

theorem noLoneCR_lone_cr {rest : List Char}
    (h : noLoneCR ('\r' :: rest) = true) : ∃ t, rest = '\n' :: t := by
  match rest with
  | '\n' :: t => exact ⟨t, rfl⟩
  | [] =>
    rw [noLoneCR.eq_3 [] (by intro r hr; cases hr)] at h
    cases h
  | c :: t =>
    by_cases hc : c = '\n'
    · exact ⟨t, by rw [hc]⟩
    · rw [noLoneCR.eq_3 (c :: t)
        (by intro r hr; rw [List.cons.injEq] at hr; exact hc hr.1)] at h
      cases h

theorem splitCRLF_eq_splitLines (s : List Char) (h : noLoneCR s = true) :
    splitCRLF s = splitLines s := by
  induction s using splitLines.induct with
  | case1 => rfl
  | case2 rest ih =>
    rw [noLoneCR.eq_2] at h
    rw [splitCRLF.eq_2, splitLines.eq_2, ih h]
  | case3 rest ih =>
    rw [noLoneCR_cons_ne rest (by decide)] at h
    rw [splitCRLF.eq_4, splitLines.eq_3, ih h]
  | case4 c rest h1 h2 ih =>
    by_cases hc : c = '\r'
    · subst hc
      obtain ⟨t, rfl⟩ := noLoneCR_lone_cr h
      exact absurd rfl (h1 t rfl)
    · rw [noLoneCR_cons_ne rest hc] at h
      rw [splitLines.eq_4 c rest h1 h2, splitCRLF_cons_ne rest (fun hn => h2 hn) hc, ih h]

theorem noLoneCR_tail {c : Char} {rest : List Char} (h : noLoneCR (c :: rest) = true) :
    noLoneCR rest = true := by
  by_cases hc : c = '\r'
  · subst hc
    obtain ⟨t, rfl⟩ := noLoneCR_lone_cr h
    rw [noLoneCR.eq_2] at h
    rw [noLoneCR_cons_ne t (by decide)]
    exact h
  · rwa [noLoneCR_cons_ne rest hc] at h

theorem getLast?_drop_ne_nil {α : Type} {l : List α} {n : Nat} (h : l.drop n ≠ []) :
    (l.drop n).getLast? = l.getLast? := by
  induction n generalizing l with
  | zero => rfl
  | succ n ih =>
    match l with
    | [] => simp at h
    | a :: t =>
      rw [List.drop_succ_cons] at h ⊢
      rw [ih h]
      match t, h with
      | [], h' => simp at h'
      | b :: t', _ => rw [List.getLast?_cons_cons]

theorem splitLines_singleton {s : List Char} (h : splitLines s = [[]]) : s = [] := by
  induction s using splitLines.induct with
  | case1 => rfl
  | case2 rest ih =>
    rw [splitLines.eq_2] at h
    injection h with _ h2
    exact absurd h2 (splitLines_ne_nil rest)
  | case3 rest ih =>
    rw [splitLines.eq_3] at h
    injection h with _ h2
    exact absurd h2 (splitLines_ne_nil rest)
  | case4 c rest h1 h2 ih =>
    rw [splitLines.eq_4 c rest h1 h2] at h
    cases hs : splitLines rest with
    | nil => exact absurd hs (splitLines_ne_nil rest)
    | cons x xs =>
      rw [hs] at h
      simp [consHead] at h



theorem getLast?_cons_ne_nil {α : Type} (a : α) {l : List α} (h : l ≠ []) :
    (a :: l).getLast? = l.getLast? := by
  match l, h with
  | b :: t, _ => rw [List.getLast?_cons_cons]

theorem splitLines_getLast_nil {s : List Char} (h : s.getLast? = some '\n') :
    (splitLines s).getLast? = some [] := by
  induction s using splitLines.induct with
  | case1 => cases h
  | case2 rest ih =>
    cases hr : rest with
    | nil => subst hr; rfl
    | cons a t =>
      subst hr
      rw [List.getLast?_cons_cons, List.getLast?_cons_cons] at h
      rw [splitLines.eq_2, getLast?_cons_ne_nil _ (splitLines_ne_nil (a :: t)), ih h]
  | case3 rest ih =>
    cases hr : rest with
    | nil => subst hr; rfl
    | cons a t =>
      subst hr
      rw [List.getLast?_cons_cons] at h
      rw [splitLines.eq_3, getLast?_cons_ne_nil _ (splitLines_ne_nil (a :: t)), ih h]
  | case4 c rest h1 h2 ih =>
    cases hr : rest with
    | nil =>
      subst hr
      simp only [List.getLast?_singleton, Option.some.injEq] at h
      exact absurd h h2
    | cons a t =>
      subst hr
      rw [getLast?_cons_ne_nil _ (by simp)] at h
      have hih := ih h
      rw [splitLines.eq_4 c (a :: t) h1 h2]
      cases hs : splitLines (a :: t) with
      | nil => exact absurd hs (splitLines_ne_nil (a :: t))
      | cons x xs =>
        rw [hs] at hih
        cases xs with
        | nil =>
          simp only [List.getLast?_singleton, Option.some.injEq] at hih
          subst hih
          exact absurd (splitLines_singleton hs) (by simp)
        | cons y ys =>
          rw [List.getLast?_cons_cons] at hih
          simpa [consHead, List.getLast?_cons_cons] using hih

theorem unit_step {s : List Char} (hcr : noLoneCR s = true)
    (h2 : 2 ≤ (splitLines s).length) :
    ∃ m, unitLen s = some m ∧ 0 < m ∧ m ≤ s.length ∧
      splitLines (s.drop m) = (splitLines s).tail ∧ noLoneCR (s.drop m) = true := by
  induction s using splitLines.induct with
  | case1 => simp [splitLines] at h2
  | case2 rest ih =>
    refine ⟨2, unitLen.eq_3 rest, by omega, by simp, ?_, ?_⟩
    · rw [splitLines.eq_2]; rfl
    · rw [noLoneCR.eq_2] at hcr; exact hcr
  | case3 rest ih =>
    refine ⟨1, unitLen.eq_2 rest, by omega, by simp, ?_, ?_⟩
    · rw [splitLines.eq_3]; rfl
    · rw [noLoneCR_cons_ne rest (by decide)] at hcr; exact hcr
  | case4 c rest h1 h2' ih =>
    by_cases hc : c = '\r'
    · subst hc
      obtain ⟨t, rfl⟩ := noLoneCR_lone_cr hcr
      exact absurd rfl (h1 t rfl)
    · have hn : c ≠ '\n' := fun hh => h2' hh
      rw [noLoneCR_cons_ne rest hc] at hcr
      rw [splitLines.eq_4 c rest h1 h2'] at h2 ⊢
      cases hs : splitLines rest with
      | nil => exact absurd hs (splitLines_ne_nil rest)
      | cons x xs =>
        rw [hs] at h2
        cases xs with
        | nil => simp [consHead] at h2
        | cons y ys =>
          have hrest2 : 2 ≤ (splitLines rest).length := by rw [hs]; simp
          obtain ⟨m, um, mpos, mle, hsp, hcr'⟩ := ih hcr hrest2
          refine ⟨m + 1, ?_, by omega, by simp; omega, ?_, ?_⟩
          · rw [unitLen_cons_ne rest hn hc, um]; rfl
          · rw [List.drop_succ_cons, hsp, hs]
            simp [consHead]
          · rw [List.drop_succ_cons]; exact hcr'

theorem units_drop (k : Nat) :
    ∀ (s : List Char), noLoneCR s = true → k + 1 ≤ (splitLines s).length →
    ∃ n, unitsLen k s = some n ∧ n ≤ s.length ∧
      splitLines (s.drop n) = (splitLines s).drop k ∧ noLoneCR (s.drop n) = true := by
  induction k with
  | zero => intro s hcr _; exact ⟨0, rfl, by omega, rfl, hcr⟩
  | succ k ih =>
    intro s hcr hlen
    obtain ⟨m, um, _, mle, hsp, hcr'⟩ := unit_step hcr (by omega)
    have hlen' : k + 1 ≤ (splitLines (s.drop m)).length := by
      rw [hsp, List.length_tail]; omega
    obtain ⟨n, un, nle, hsp', hcr''⟩ := ih (s.drop m) hcr' hlen'
    refine ⟨m + n, ?_, ?_, ?_, ?_⟩
    · show unitsLen (k + 1) s = some (m + n)
      simp [unitsLen, um, un]
    · have := List.length_drop m s
      omega
    · rw [← List.drop_drop n m s, hsp', hsp]
      cases hs : splitLines s with
      | nil => exact absurd hs (splitLines_ne_nil s)
      | cons x xs => simp
    · rw [← List.drop_drop n m s]; exact hcr''

theorem regexMatchLen_head {k : Nat} {s : List Char} {n : Nat}
    (h : unitsLen k s = some n) : regexMatchLen k s = some n := by
  cases s with
  | nil => simpa [regexMatchLen] using h
  | cons c t => simp [regexMatchLen, h]



/-! ### Cursor search lemmas -/

theorem linesCursor_num {N : Nat} {C : List Char} {n : Nat}
    (hT : N < (splitLines C).length)
    (hre : regexMatchLen ((splitLines C).length - N) C = some n) :
    linesCursor (.num (N : Int)) false C = n := by
  simp only [linesCursor, Sel.val, Sel.isPlus, if_false, Bool.false_eq_true]
  rw [if_neg (by omega)]
  have hsf : (((splitLines C).length : Int) - (N : Int) - 0).toNat
      = (splitLines C).length - N := by omega
  rw [hsf, hre]

theorem step_cursor_mono (opts : Options) (st : TailState) (ev : TailEvent)
    (h : isTruncStep st ev = false) : st.cursor ≤ (step opts st ev).cursor := by
  cases ev with
  | closeEvt n => simp [step]
  | poll content =>
    simp only [isTruncStep, Bool.and_eq_false_iff, Bool.not_eq_false',
      decide_eq_false_iff_not, not_lt] at h
    simp only [step]
    split_ifs with h1 h2 h3 h4
    · exact le_refl _
    · exact le_refl _
    · rcases h with h | h
      · exact absurd h h1
      · omega
    · exact le_refl _
    · exact le_refl _

/-! ### Claim theorems -/

/-- C1 (counterexample): for the content "a\nb\nc" — three
terminator-delimited segments, no trailing terminator — and the request
for the last 2 lines (no byte selector, no follow), the code emits three
lines, not the two the claim demands: the `removeLast = 1` offset makes
the cursor land one line too early when the content does not end in a
terminator. -/
theorem claim_C1_counterexample :
    (0 < 2 ∧ 2 < (splitLines ("a\nb\nc".data)).length)
    ∧ tailRunFile ⟨none, .num 2, false⟩ ("a\nb\nc".data) = .ok [['a'], ['b'], ['c']]
    ∧ (tailRunFile ⟨none, .num 2, false⟩ ("a\nb\nc".data)).count ≠ 2 := by decide

/-- C1 (amended): for content whose carriage returns all belong to CRLF
pairs and which ends with a line terminator, a last-N-lines request with
1 < N < total segment count (no byte selector, not in follow mode) emits
exactly the last N terminator-delimited segments of the content — N lines,
the last one the empty segment after the final terminator.  (For N = 1 the
cursor equals the file size and nothing at all is emitted; without a
trailing terminator one extra line is emitted — see the counterexample.) -/
theorem claim_C1_amended (C : List Char) (N : Nat)
    (hcr : noLoneCR C = true) (hlf : C.getLast? = some '\n')
    (hN : 1 < N) (hT : N < (splitLines C).length) :
    tailRunFile ⟨none, .num (N : Int), false⟩ C
        = .ok ((splitLines C).drop ((splitLines C).length - N))
    ∧ ((splitLines C).drop ((splitLines C).length - N)).length = N := by
  have hlast := splitLines_getLast_nil hlf
  have hign : ignoreEOFNewline false C = false := by
    simp [ignoreEOFNewline, hlast]
  have hk1 : ((splitLines C).length - N) + 1 ≤ (splitLines C).length := by omega
  obtain ⟨n, un, nle, hsp, hcr'⟩ := units_drop ((splitLines C).length - N) C hcr hk1
  have hre := regexMatchLen_head un
  have hlc := linesCursor_num hT hre
  have hinit : initCursor ⟨none, .num (N : Int), false⟩ C = n := by
    unfold initCursor
    rw [if_neg (by simp only [Sel.val]; omega)]
    unfold getCursorPos
    simp only [bytesTruthy, Bool.false_eq_true, if_false]
    rw [hign]
    exact hlc
  have hreslen : ((splitLines C).drop ((splitLines C).length - N)).length = N := by
    rw [List.length_drop]; omega
  refine ⟨?_, hreslen⟩
  have hrest : C.drop n ≠ [] := by
    intro hnil
    rw [hnil] at hsp
    have hlen1 := hreslen
    rw [← hsp] at hlen1
    simp [splitLines] at hlen1
    omega
  have hnlt : n < C.length := by
    by_contra hge
    exact hrest (List.drop_eq_nil_of_le (by omega))
  have hdropne : (splitLines C).drop ((splitLines C).length - N) ≠ [] := by
    intro h
    rw [h] at hreslen
    simp at hreslen
    omega
  have hlastdrop : ((splitLines C).drop ((splitLines C).length - N)).getLast? = some [] := by
    rw [getLast?_drop_ne_nil hdropne]
    exact hlast
  have hrl : readlineLines (C.drop n)
      = ((splitLines C).drop ((splitLines C).length - N)).dropLast := by
    unfold readlineLines
    rw [splitCRLF_eq_splitLines _ hcr', hsp, if_pos hlastdrop]
  simp only [tailRunFile]
  rw [hign, hinit]
  rw [if_neg (by omega), if_neg (by omega), if_neg (by omega)]
  simp only [Bool.false_eq_true, if_false, Int.toNat_natCast]
  rw [hrl]
  congr 1
  exact List.dropLast_append_getLast? [] (Option.mem_def.mpr hlastdrop)

/-- C1 (witness): the amended theorem applied to "a\nb\nc\n" with N = 2:
the emitted lines are the last two segments, "c" and the empty trailing
segment. -/
theorem claim_C1_witness :
    tailRunFile ⟨none, .num ((2 : Nat) : Int), false⟩ ("a\nb\nc\n".data)
        = .ok ((splitLines ("a\nb\nc\n".data)).drop
            ((splitLines ("a\nb\nc\n".data)).length - 2))
    ∧ ((splitLines ("a\nb\nc\n".data)).drop
        ((splitLines ("a\nb\nc\n".data)).length - 2)).length = 2 :=
  claim_C1_amended ("a\nb\nc\n".data) 2 (by decide) (by decide) (by decide) (by decide)

/-- C2 (counterexample): for content of ten digit lines ending with a
trailing terminator and `lines: 10`, the emitted sequence is not the ten
content lines followed by a trailing empty line as the claim states. -/
theorem claim_C2_counterexample :
    tailRunFile ⟨none, .num 10, false⟩ ("0\n1\n2\n3\n4\n5\n6\n7\n8\n9\n".data)
      ≠ .ok [['0'], ['1'], ['2'], ['3'], ['4'], ['5'], ['6'], ['7'], ['8'], ['9'], []] := by
  decide

/-- C2 (amended): with a trailing terminator and `follow` off,
`ignoreEOFNewline` is cleared, so `removeLast` is 0 (not 1 as the claim
says), `searchFrom` is 11 - 10 - 0 = 1, and the emission is the last ten
of the eleven terminator-delimited segments: the last nine content lines
followed by one trailing empty-string line. -/
theorem claim_C2_amended :
    tailRunFile ⟨none, .num 10, false⟩ ("0\n1\n2\n3\n4\n5\n6\n7\n8\n9\n".data)
      = .ok [['1'], ['2'], ['3'], ['4'], ['5'], ['6'], ['7'], ['8'], ['9'], []]
    ∧ ignoreEOFNewline false ("0\n1\n2\n3\n4\n5\n6\n7\n8\n9\n".data) = false := by
  decide

/-- C3: at a truncation detected during follow polling (cursor 22 above
size 3) the code emits, before resetting the cursor, the marker
"tail : file truncated\n" — not the text "better-tail: file truncated"
that the claim, the README and the repository's own test suite specify. -/
theorem claim_C3_truncation_marker :
    (step ⟨none, .num 10, true⟩ ⟨22, false, [], false, true, false⟩
        (.poll ("abc".data))).emitted = [truncationMarker]
    ∧ (step ⟨none, .num 10, true⟩ ⟨22, false, [], false, true, false⟩
        (.poll ("abc".data))).cursor
        = truncResetCursor ⟨none, .num 10, true⟩ ("abc".data)
    ∧ truncationMarker ≠ "better-tail: file truncated".data := by decide

/-- C4 (counterexample): for content "abc" (3 bytes) and a last-5-bytes
request, the computed offset is -2, not max(0, 3 - 5) = 0, and the run
errors instead of emitting the entire content. -/
theorem claim_C4_counterexample :
    getCursorPos ⟨some (.num 5), .num 10, false⟩
        (ignoreEOFNewline false ("abc".data)) ("abc".data) = -2
    ∧ max 0 ((("abc".data).length : Int) - 5) = 0
    ∧ tailRunFile ⟨some (.num 5), .num 10, false⟩ ("abc".data)
        = .err "ERR_OUT_OF_RANGE" := by decide

/-- C4 (amended): a last-N-bytes request yields the unclamped offset
totalByteLength - N; for N ≤ total this coincides with the claimed
max(0, total - N), but for N above the total the offset is negative and
the instance fails with a range error rather than emitting the entire
content.  A line selector at or above the total segment count does yield
offset 0 and an error-free run, as claimed. -/
theorem claim_C4_amended (C : List Char) (N : Nat) (l : Sel) :
    (0 < N → bytesCursor (.num (N : Int)) C = (C.length : Int) - N)
    ∧ (0 < N → (N : Int) ≤ (C.length : Int) →
        bytesCursor (.num (N : Int)) C = max 0 ((C.length : Int) - N))
    ∧ ((C.length : Int) < (N : Int) →
        tailRunFile ⟨some (.num (N : Int)), .num 10, false⟩ C = .err "ERR_OUT_OF_RANGE")
    ∧ (((splitLines C).length : Int) ≤ l.val →
        initCursor ⟨none, l, false⟩ C = 0
        ∧ (tailRunFile ⟨none, l, false⟩ C).isOk = true) := by
  have hbc : bytesCursor (.num (N : Int)) C = (C.length : Int) - N := by
    simp [bytesCursor, Sel.isPlus, Sel.val]
  refine ⟨fun _ => hbc, fun _ hle => ?_, fun hlt => ?_, fun hge => ?_⟩
  · rw [hbc, max_eq_right (by omega)]
  · have htr : bytesTruthy (some (.num (N : Int))) = true := by
      simp [bytesTruthy]
      omega
    have hinit : initCursor ⟨some (.num (N : Int)), .num 10, false⟩ C
        = (C.length : Int) - N := by
      unfold initCursor
      rw [if_neg (by simp [Sel.val])]
      unfold getCursorPos
      rw [if_pos htr]
      exact hbc
    simp only [tailRunFile]
    rw [hinit]
    rw [if_neg (by omega), if_neg (by omega), if_pos (by omega)]
  · have hcur : initCursor ⟨none, l, false⟩ C = 0 := by
      unfold initCursor
      by_cases hl : l.val ≤ 0
      · rw [if_pos hl]
      · rw [if_neg hl]
        unfold getCursorPos
        simp only [bytesTruthy, Bool.false_eq_true, if_false]
        unfold linesCursor
        rw [if_pos hge]
    refine ⟨hcur, ?_⟩
    simp only [tailRunFile]
    rw [hcur]
    by_cases hlen : (0 : Int) = (C.length : Int)
    · rw [if_pos hlen]; rfl
    · rw [if_neg hlen, if_neg (by omega), if_neg (by omega)]; rfl

/-- C4 (witness): the amended theorem at concrete inputs — last 2 bytes of
"a\nb" (offset 1 = max 0 1), last 9 bytes of "xy" (range error), and line
selector 99 on "a\nb" (offset 0, error-free run). -/
theorem claim_C4_witness :
    bytesCursor (.num ((2 : Nat) : Int)) ("a\nb".data)
        = ((("a\nb".data)).length : Int) - 2
    ∧ bytesCursor (.num ((2 : Nat) : Int)) ("a\nb".data)
        = max 0 (((("a\nb".data)).length : Int) - 2)
    ∧ tailRunFile ⟨some (.num ((9 : Nat) : Int)), .num 10, false⟩ ("xy".data)
        = .err "ERR_OUT_OF_RANGE"
    ∧ (initCursor ⟨none, .num 99, false⟩ ("a\nb".data) = 0
       ∧ (tailRunFile ⟨none, .num 99, false⟩ ("a\nb".data)).isOk = true) :=
  ⟨(claim_C4_amended ("a\nb".data) 2 (.num 99)).1 (by decide),
   (claim_C4_amended ("a\nb".data) 2 (.num 99)).2.1 (by decide) (by decide),
   (claim_C4_amended ("xy".data) 9 (.num 99)).2.2.1 (by decide),
   (claim_C4_amended ("a\nb".data) 2 (.num 99)).2.2.2 (by decide)⟩

/-- C5 (counterexample): two option records sharing the byte selector
(last 2 bytes) but differing in the line selector (5 versus -1) produce
different outputs on "ab\ncd\nef": the nonpositive line selector forces
the cursor to 0 and the whole content is emitted, bypassing the byte
selector — so the byte selector does not always take precedence. -/
theorem claim_C5_counterexample :
    tailRunFile ⟨some (.num 2), .num 5, false⟩ ("ab\ncd\nef".data)
      ≠ tailRunFile ⟨some (.num 2), .num (-1), false⟩ ("ab\ncd\nef".data) := by decide

/-- C5 (amended): as long as both line selectors are positive (so neither
triggers the tail-everything shortcut), a truthy byte selector takes
precedence and the emitted output is identical whatever the line
selectors are. -/
theorem claim_C5_amended (C : List Char) (b : Sel) (l1 l2 : Sel) (fol : Bool)
    (hb : bytesTruthy (some b) = true) (h1 : 0 < l1.val) (h2 : 0 < l2.val) :
    tailRunFile ⟨some b, l1, fol⟩ C = tailRunFile ⟨some b, l2, fol⟩ C := by
  have hcur : ∀ l : Sel, 0 < l.val → initCursor ⟨some b, l, fol⟩ C = bytesCursor b C := by
    intro l hl
    unfold initCursor
    rw [if_neg (by show ¬l.val ≤ 0; omega)]
    unfold getCursorPos
    rw [if_pos hb]
  simp only [tailRunFile]
  rw [hcur l1 h1, hcur l2 h2]

/-- C5 (witness): the amended theorem at byte selector 2 and line
selectors 5 and 7 on "ab\ncd\nef". -/
theorem claim_C5_witness :
    tailRunFile ⟨some (.num 2), .num 5, false⟩ ("ab\ncd\nef".data)
      = tailRunFile ⟨some (.num 2), .num 7, false⟩ ("ab\ncd\nef".data) :=
  claim_C5_amended ("ab\ncd\nef".data) (.num 2) (.num 5) (.num 7) false
    (by decide) (by decide) (by decide)

/-- C6: the retry controller (modelled from the spec, see `retryRun`) with
an attempt budget of 3 and a never-accessible source fails with
`RetryMaxAttemptsError` after exactly 4 validation attempts (initial plus
3 retries), having slept the configured interval between attempts (elapsed
3 * interval at failure); with a 5000 ms time budget and 1000 ms interval
it fails with `RetryTimeoutError` at elapsed 6000 ms ≥ 5000 ms. -/
theorem claim_C6_retry_budgets (i fuel : Nat) (hfuel : 4 ≤ fuel) :
    retryRun ⟨i, none, some 3⟩ (fun _ => false) fuel 0 0
      = some (.maxAttemptsErr 4 (3 * i))
    ∧ retryRun ⟨1000, some 5000, none⟩ (fun _ => false) 7 0 0
      = some (.timeoutErr 7 6000)
    ∧ 5000 ≤ 6000 := by
  obtain ⟨k, rfl⟩ : ∃ k, fuel = k + 4 := ⟨fuel - 4, by omega⟩
  refine ⟨?_, by decide, by omega⟩
  simp [retryRun, budgetExceeded]
  omega

/-- C6 (witness): the retry theorem at interval 2 and fuel 10. -/
theorem claim_C6_witness :
    retryRun ⟨2, none, some 3⟩ (fun _ => false) 10 0 0
      = some (.maxAttemptsErr 4 6)
    ∧ retryRun ⟨1000, some 5000, none⟩ (fun _ => false) 7 0 0
      = some (.timeoutErr 7 6000)
    ∧ 5000 ≤ 6000 :=
  claim_C6_retry_budgets 2 10 (by decide)

/-- C7: over any sequence of poll/close events containing no truncation
step, the cursor never decreases; and at a detected truncation (a poll
whose content size is below the cursor, with no read in flight) the new
cursor is exactly the fresh cursor computation over the shrunken content
with the original constructor options. -/
theorem claim_C7_cursor_monotone (opts : Options) :
    (∀ st evs, noTruncRun opts st evs = true → st.cursor ≤ (run opts st evs).cursor)
    ∧ (∀ st content, st.isReading = false → (content.length : Int) < st.cursor →
        (step opts st (.poll content)).cursor = truncResetCursor opts content) := by
  constructor
  · intro st evs
    induction evs generalizing st with
    | nil => intro _; exact le_refl _
    | cons ev evs ih =>
      intro h
      simp only [noTruncRun, Bool.and_eq_true, Bool.not_eq_true'] at h
      calc st.cursor ≤ (step opts st ev).cursor := step_cursor_mono opts st ev h.1
        _ ≤ (run opts (step opts st ev) evs).cursor := ih _ h.2
  · intro st content hr hlt
    simp only [step, hr, Bool.false_eq_true, if_false]
    rw [if_neg (by omega), if_pos hlt]

/-- C7 (witness): the monotonicity conjunct on a concrete two-event trace
and the truncation conjunct at cursor 9 against two-byte content. -/
theorem claim_C7_witness :
    ((⟨0, false, [], false, false, false⟩ : TailState)).cursor
      ≤ (run ⟨none, .num 10, true⟩ ⟨0, false, [], false, false, false⟩
          [.poll ("ab".data), .closeEvt 2]).cursor
    ∧ (step ⟨none, .num 10, true⟩ ⟨9, false, [], false, false, false⟩
          (.poll ("ab".data))).cursor
        = truncResetCursor ⟨none, .num 10, true⟩ ("ab".data) :=
  ⟨(claim_C7_cursor_monotone ⟨none, .num 10, true⟩).1 _ _ (by decide),
   (claim_C7_cursor_monotone ⟨none, .num 10, true⟩).2
     ⟨9, false, [], false, false, false⟩ ("ab".data) (by decide) (by decide)⟩

/-- C8: whenever the line selector coerces to a value at or below zero,
the constructor cursor and the truncation-recovery cursor are both 0 —
tail everything — whatever the byte selector and content are, bypassing
both the byte-selector and line-search steps. -/
theorem claim_C8_lines_lez (opts : Options) (data : List Char)
    (h : opts.lines.val ≤ 0) :
    initCursor opts data = 0 ∧ truncResetCursor opts data = 0 := by
  unfold initCursor truncResetCursor
  rw [if_pos h, if_pos h]
  exact ⟨rfl, rfl⟩

/-- C8 (witness): line selector -1 together with a byte selector still
yields cursor 0 at initialization and at truncation recovery. -/
theorem claim_C8_witness :
    initCursor ⟨some (.num 3), .num (-1), false⟩ ("ab\ncd".data) = 0
    ∧ truncResetCursor ⟨some (.num 3), .num (-1), false⟩ ("ab\ncd".data) = 0 :=
  claim_C8_lines_lez ⟨some (.num 3), .num (-1), false⟩ ("ab\ncd".data) (by decide)

/-- C9 (counterexample): on an instance with `follow = false` and an open
readline interface, `unfollow()` is not a no-op — it closes the readline
and marks the stream destroyed, changing the state. -/
theorem claim_C9_counterexample :
    unfollow ⟨none, .num 10, false⟩ ⟨0, false, [['a']], true, false, false⟩
      ≠ (⟨0, false, [['a']], true, false, false⟩ : TailState) := by decide

/-- C9 (amended): `unfollow()` always calls `destroy()`, even when
`follow` was false: it closes any open readline interface and marks the
stream destroyed; already-emitted data is never discarded; and when
`follow` was true it also clears the polling interval, aborting further
ticks. -/
theorem claim_C9_amended (opts : Options) (st : TailState) :
    (unfollow opts st).emitted = st.emitted
    ∧ (unfollow opts st).destroyed = true
    ∧ (unfollow opts st).rlOpen = false
    ∧ (opts.follow = true → (unfollow opts st).intervalSet = false) := by
  refine ⟨rfl, rfl, rfl, ?_⟩
  intro h
  simp [unfollow, destroyState, h]

/-- C9 (witness): the amended theorem on a follow-mode instance with an
armed interval and an open readline. -/
theorem claim_C9_witness :
    (unfollow ⟨none, .num 10, true⟩ ⟨5, false, [['a']], true, true, false⟩).emitted
        = (⟨5, false, [['a']], true, true, false⟩ : TailState).emitted
    ∧ (unfollow ⟨none, .num 10, true⟩ ⟨5, false, [['a']], true, true, false⟩).destroyed = true
    ∧ (unfollow ⟨none, .num 10, true⟩ ⟨5, false, [['a']], true, true, false⟩).rlOpen = false
    ∧ (unfollow ⟨none, .num 10, true⟩ ⟨5, false, [['a']], true, true, false⟩).intervalSet = false :=
  have h := claim_C9_amended ⟨none, .num 10, true⟩ ⟨5, false, [['a']], true, true, false⟩
  ⟨h.1, h.2.1, h.2.2.1, h.2.2.2 rfl⟩

/-- C10: an absent target resolves to standard input as a stream target
with follow forced on; every stream target starts with cursor 0, and its
emission is the readline split of the whole stream content from its
current position — identical for any two option records, so the byte and
line selectors are never consulted. -/
theorem claim_C10_stream (o1 o2 : Options) (content : List Char) :
    guessTarget .absent = .ok .stream true
    ∧ constructorCursor .stream o1 content = 0
    ∧ tailRun .stream o1 content = .ok (readlineLines content)
    ∧ tailRun .stream o1 content = tailRun .stream o2 content :=
  ⟨rfl, rfl, rfl, rfl⟩

end BetterTail
